import Mathlib

/-!
Shallow embedding of the dials-research simulation core.

Source files embedded: `src/dial.rs` (ranges, path segments, path generation,
the `Dial` state machine) and `src/lib.rs` (startup validation in `run` /
`validate_config` and the simulation loop `model`).

Modelling conventions:
* Rust `f32` values are modelled as exact rationals (`ℚ`); float rounding is
  not modelled, so "within floating-point tolerance" statements become exact.
* `rand::random::<f32>()` (a uniform draw in `[0,1)`) and
  `rand::random::<bool>()` are modelled as explicit oracle parameters; theorems
  quantify over all draws in the sampled set.
* The float exponential used by `sigmoid` is a library function external to the
  repository; it is passed as an explicit parameter `fexp : ℚ → ℚ`, keeping
  every definition computable.  No theorem below depends on its values.
* Mutation is modelled by state passing: `Dial::update(&mut self, f32) -> bool`
  becomes `Dial.update : (ℚ → ℚ) → Dial → ℚ → Bool × Dial`.
-/

namespace DialsResearch

/-- Embeds `sigmoid` from `src/dial.rs`: `1.0 / (1.0 + (-a).exp())`, with the
float exponential supplied as the parameter `fexp`. -/
def sigmoid (fexp : ℚ → ℚ) (a : ℚ) : ℚ :=
  1 / (1 + fexp (-a))

/-- Embeds `DialRange` from `src/dial.rs`: a closed interval; the field `end`
is a Lean keyword and is rendered `end_`. -/
structure DialRange where
  start : ℚ
  end_ : ℚ
deriving DecidableEq

/-- Embeds `DialRange::contains`: `value <= self.end && value >= self.start`. -/
def DialRange.contains (r : DialRange) (value : ℚ) : Bool :=
  value ≤ r.end_ && value ≥ r.start

/-- Embeds `DialRange::middle`: `(self.end - self.start) / 2.0 + self.start`. -/
def DialRange.middle (r : DialRange) : ℚ :=
  (r.end_ - r.start) / 2 + r.start

/-- Embeds `DialRange::random_near`.  The two random draws are explicit:
`decrease` models `rand::random::<bool>()` and `rnd` models
`rand::random::<f32>()` (a draw in `[0,1)`). -/
def DialRange.random_near (r : DialRange) (decrease : Bool) (rnd : ℚ) (value : ℚ) : ℚ :=
  let random_magnitude := (r.end_ - r.start) * rnd
  let tamed_magnitude := random_magnitude / 2
  let tamed_magnitude := if decrease then tamed_magnitude * (-1) else tamed_magnitude
  if !(r.contains (value + tamed_magnitude)) then
    value - tamed_magnitude
  else
    value + tamed_magnitude

/-- Embeds `DialRange::random_in`: `self.start + (self.end - self.start) * rnd`
with `rnd` the `[0,1)` draw made explicit. -/
def DialRange.random_in (r : DialRange) (rnd : ℚ) : ℚ :=
  r.start + (r.end_ - r.start) * rnd

/-- Embeds `DialRange::slightly_out`: `amount = rnd * 400.0`; a value at or
below `halfway` drifts to `start - amount`, otherwise to `end + amount`. -/
def DialRange.slightly_out (r : DialRange) (rnd : ℚ) (value : ℚ) : ℚ :=
  let halfway := (r.end_ - r.start) / 2 + r.start
  let amount := rnd * 400
  if value ≤ halfway then
    r.start - amount
  else
    r.end_ + amount

/-- Embeds `PathSegment` from `src/dial.rs` (field `end` rendered `end_`). -/
structure PathSegment where
  start : ℚ
  end_ : ℚ
  duration : ℚ
deriving DecidableEq

/-- Embeds `PathSegment::value_at_time`:
`sigmoid((10.0 / duration) * time - 5.0) * (end - start) + start`. -/
def PathSegment.value_at_time (fexp : ℚ → ℚ) (s : PathSegment) (time : ℚ) : ℚ :=
  let xOffset : ℚ := -5
  let scale_factor := s.end_ - s.start
  let x_value := (10 / s.duration) * time
  sigmoid fexp (x_value + xOffset) * scale_factor + s.start

/-- Embeds `PathSegment::in_segment`: `time <= self.duration`. -/
def PathSegment.in_segment (s : PathSegment) (time : ℚ) : Bool :=
  time ≤ s.duration

/-- Embeds `PathSegment::travel_direction`: `1.0` if `start < end` else `-1.0`. -/
def PathSegment.travel_direction (s : PathSegment) : ℚ :=
  if s.start < s.end_ then 1 else -1

/-- Embeds the `for _ in 0..(num_segments - 1)` loop of
`generate_random_dial_path`: emits `k` segments obtained by repeated
`random_near` steps starting from `last`, all with the same `duration`; the
coin flips and magnitude draws of iteration `i` are `flips (i0+i)` and
`draws (i0+i)`.  Returns the emitted segments together with the final
`last_value`. -/
def randomNearSegs (r : DialRange) (flips : ℕ → Bool) (draws : ℕ → ℚ)
    (duration : ℚ) : ℕ → ℕ → ℚ → List PathSegment × ℚ
  | _, 0, last => ([], last)
  | i0, k + 1, last =>
    let next := r.random_near (flips i0) (draws i0) last
    let rest := randomNearSegs r flips draws duration (i0 + 1) k next
    (⟨last, next, duration⟩ :: rest.1, rest.2)

/-- Embeds `generate_random_dial_path` from `src/dial.rs`.  Random draws made
explicit: `numDraw` chooses the segment count, `inDraw` seeds `last_value =
range.random_in()`, `flips`/`draws` feed the `random_near` chain, and
`outDraw` feeds the final `slightly_out`.  The Rust
`(max_path_segments as f32 * num) as usize` truncation is `Int.toNat ∘
Int.floor` (draws are nonnegative).  The loop bound `num_segments - 1` uses
truncated `ℕ` subtraction, faithful to the Rust `usize` arithmetic whenever
`num_segments ≥ 1`. -/
def generate_random_dial_path (r : DialRange) (time_to_drift : ℚ)
    (drift_out : Bool) (max_path_segments min_path_segments : ℕ)
    (numDraw inDraw : ℚ) (flips : ℕ → Bool) (draws : ℕ → ℚ) (outDraw : ℚ) :
    List PathSegment :=
  let num_segments := Nat.max (Int.toNat ⌊(max_path_segments : ℚ) * numDraw⌋) min_path_segments
  let last_value := r.random_in inDraw
  let duration := time_to_drift / (num_segments : ℚ)
  let built := randomNearSegs r flips draws duration 0 (num_segments - 1) last_value
  if drift_out then
    built.1 ++ [⟨built.2, r.slightly_out outDraw built.2, duration⟩]
  else
    built.1

/-- Embeds the `Dial` struct of `src/dial.rs`; `VecDeque` queues become
lists consumed at the head. -/
structure Dial where
  value : ℚ
  row_id : ℕ
  col_id : ℕ
  in_range : DialRange
  trial_paths : List (List PathSegment)
  segment_time : ℚ
  travel_direction : ℚ
  out_of_range : Bool
deriving DecidableEq

/-- Embeds `Dial::reset`: pop the front trial; if no trials remain, snap the
value to the middle of the range.  No other field is written. -/
def Dial.reset (d : Dial) : Dial :=
  let trial_paths := d.trial_paths.tail
  if trial_paths.isEmpty then
    { d with trial_paths := trial_paths, value := d.in_range.middle }
  else
    { d with trial_paths := trial_paths }

/-- Embeds `Dial::update`.  Returns the Rust return value
`!self.out_of_range && !self.in_range.contains(self.value)` paired with the
updated dial.  Note the source never writes `out_of_range`. -/
def Dial.update (fexp : ℚ → ℚ) (d : Dial) (delta_time : ℚ) : Bool × Dial :=
  let segment_time := d.segment_time + delta_time
  let d' :=
    match d.trial_paths with
    | path :: restTrials =>
      match path with
      | current :: restSegs =>
        if current.in_segment segment_time then
          { d with segment_time := segment_time,
                   value := current.value_at_time fexp segment_time }
        else
          { d with segment_time := 0,
                   travel_direction := current.travel_direction,
                   trial_paths := restSegs :: restTrials }
      | [] => { d with segment_time := segment_time }
    | [] =>
      { d with segment_time := segment_time,
               value := d.value + d.travel_direction * 20 * delta_time }
  (!d'.out_of_range && !d'.in_range.contains d'.value, d')

/-- Embeds the `Alarm` payload consumed by `model` in `src/lib.rs` (fields
`dial_id`, `time`, `correct_key`).  `Instant` is modelled as a rational
timestamp.  The `dial_id` is the index into `state.dials`, which is how
`model` uses it (`state.dials[alarm.dial_id]`). -/
structure Alarm where
  dial_id : ℕ
  time : ℚ
  correct_key : Char
deriving DecidableEq

/-- Embeds `DialReaction::new(alarm.dial_id, millis, alarm.correct_key == key,
key)` from `src/lib.rs`; elapsed milliseconds are kept exact as a rational. -/
structure DialReaction where
  dial_id : ℕ
  millis : ℚ
  correct : Bool
  key : Char
deriving DecidableEq

/-- Embeds `state.dials[alarm.dial_id].reset()`: reset the dial at index `i`,
leaving every other entry unchanged (in the source an out-of-bounds index
panics; theorems that need in-bounds behaviour hypothesise it). -/
def resetAt : List Dial → ℕ → List Dial
  | [], _ => []
  | d :: ds, 0 => d.reset :: ds
  | d :: ds, n + 1 => d :: resetAt ds n

/-- Embeds the alarm-resolution block of `model` (`src/lib.rs` lines 131-142):
if a key is pressed and an alarm is queued, pop the oldest alarm, build the
reaction record, and reset the dial the alarm names.  Returns the new queue,
the new dial list and the emitted reaction, with `now` the current instant. -/
def resolveAlarm (now : ℚ) (pressed_key : Option Char) (queued_alarms : List Alarm)
    (dials : List Dial) : List Alarm × List Dial × Option DialReaction :=
  match pressed_key with
  | some key =>
    match queued_alarms with
    | alarm :: rest =>
      let millis := (now - alarm.time) * 1000
      let reaction : DialReaction :=
        ⟨alarm.dial_id, millis, alarm.correct_key == key, key⟩
      (rest, resetAt dials alarm.dial_id, some reaction)
    | [] => (queued_alarms, dials, none)
  | none => (queued_alarms, dials, none)

/-- Embeds the `AppState` aggregate as used by `model` in `src/lib.rs` (the
struct itself lives in the out-of-scope UI module `app.rs`; the `ball` and the
raw `input_x`/`input_y` arrays belong to the external collaborators and are
omitted). -/
structure AppState where
  dials : List Dial
  input_axes : ℚ × ℚ
  pressed_key : Option Char
  queued_alarms : List Alarm
deriving DecidableEq

/-- Embeds the body of one `model` iteration (`src/lib.rs` lines 117-141):
update every dial, extend the alarm queue with the dials that reported an
out-of-range transition, then resolve at most one alarm.  Modelled from the
spec: the alarm payload attached to a reporting dial (`lib.rs` pattern-matches
`dial.update` as yielding it, but the `Dial` under `src` returns only a
`Bool`) is an `Alarm` carrying the dial's index, the instant it was raised and
the dial's clear key, the keys being supplied by `clear_keys`.  The `Ball`
update is external to the core and omitted. -/
def modelTickBody (fexp : ℚ → ℚ) (clear_keys : ℕ → Char) (now delta_time : ℚ)
    (s : AppState) : AppState :=
  let updated := s.dials.map (fun d => d.update fexp delta_time)
  let dials := updated.map Prod.snd
  let alarms := updated.enum.filterMap
    (fun p => if p.2.1 then some (⟨p.1, now, clear_keys p.1⟩ : Alarm) else none)
  let queued := s.queued_alarms ++ alarms
  let resolved := resolveAlarm now s.pressed_key queued dials
  { s with dials := resolved.2.1, queued_alarms := resolved.1 }

/-- Embeds the control flow of the `loop` in `model` (`src/lib.rs` lines
111-146) for `fuel` iterations starting at iteration index `i`: each iteration
runs the body only when `state.lock()` succeeds (`lockOk`), and the loop
always proceeds to the next iteration.  `now`/`delta` give each iteration's
wall-clock instant and elapsed delta. -/
def modelLoopAux (fexp : ℚ → ℚ) (clear_keys : ℕ → Char) (lockOk : ℕ → Bool)
    (now delta : ℕ → ℚ) : ℕ → ℕ → AppState → AppState
  | _, 0, s => s
  | i, fuel + 1, s =>
    let s' := if lockOk i then modelTickBody fexp clear_keys (now i) (delta i) s else s
    modelLoopAux fexp clear_keys lockOk now delta (i + 1) fuel s'

/-- Runs `n` iterations of the `model` loop from iteration 0. -/
def modelLoop (fexp : ℚ → ℚ) (clear_keys : ℕ → Char) (lockOk : ℕ → Bool)
    (now delta : ℕ → ℚ) (n : ℕ) (s : AppState) : AppState :=
  modelLoopAux fexp clear_keys lockOk now delta 0 n s

/-- Embeds `config::Alarm` from `src/config.rs`. -/
structure ConfigAlarm where
  name : String
  audio_path : String
  clear_key : Char
deriving DecidableEq

/-- Embeds `config::Dial` from `src/config.rs` (field `end` rendered `end_`). -/
structure ConfigDial where
  alarm : String
  start : ℚ
  end_ : ℚ
  rate : ℚ
deriving DecidableEq

/-- Embeds the dial/alarm part of `config::Config` from `src/config.rs` (the
ball section and output path are external concerns). -/
structure Config where
  dials : List ConfigDial
  alarms : List ConfigAlarm
deriving DecidableEq

/-- Embeds `validate_config` from `src/lib.rs`: exit(1) when some dial names
an alarm that does not exist (modelled as `none`), otherwise uppercase every
alarm's `clear_key` (Rust takes the first character of
`char::to_uppercase`; for the single-character keys involved this is
`Char.toUpper`). -/
def validate_config (config : Config) : Option Config :=
  let alarm_names := config.alarms.map (fun a => a.name)
  if config.dials.all (fun d => alarm_names.contains d.alarm) then
    some { config with
           alarms := config.alarms.map (fun a => { a with clear_key := a.clear_key.toUpper }) }
  else
    none

/-- Embeds the dial constructed by `run` in `src/lib.rs`:
`Dial::new(id, dial.rate, DialRange::new(dial.start, dial.end),
alarm.clear_key)` — the tuple of arguments the core dial is built from. -/
structure RunDial where
  id : ℕ
  rate : ℚ
  in_range : DialRange
  clear_key : Char
deriving DecidableEq

/-- Embeds the dial-construction loop of `run` (`src/lib.rs` lines 70-83):
each config dial looks its alarm up in the map built from `config.alarms`
(`alarms[dial.alarm.as_str()]`, which panics when the name is missing —
modelled as `Except.error` carrying the missing name) and captures that
alarm's current `clear_key`. -/
def buildDials (alarms : List ConfigAlarm) : ℕ → List ConfigDial → Except String (List RunDial)
  | _, [] => Except.ok []
  | id, d :: ds =>
    match alarms.find? (fun a => a.name == d.alarm) with
    | some alarm =>
      match buildDials alarms (id + 1) ds with
      | Except.ok rest =>
        Except.ok (⟨id, d.rate, ⟨d.start, d.end_⟩, alarm.clear_key⟩ :: rest)
      | Except.error e => Except.error e
    | none => Except.error d.alarm

/-- Outcome of the startup sequence of `run`. -/
inductive RunOutcome where
  | panicMissingAlarm (name : String)
  | validationFailed
  | started (dials : List RunDial) (validated : Config)
deriving DecidableEq

/-- Embeds the startup order of `run` in `src/lib.rs`: dials are constructed
first (panicking on a missing alarm name), stored into the shared state, and
only then is `validate_config` called. -/
def run_setup (config : Config) : RunOutcome :=
  match buildDials config.alarms 0 config.dials with
  | Except.error name => RunOutcome.panicMissingAlarm name
  | Except.ok dials =>
    match validate_config config with
    | none => RunOutcome.validationFailed
    | some validated => RunOutcome.started dials validated

/-- A constant stand-in for the float exponential, used to instantiate `fexp`
in concrete evaluations; none of the evaluated code paths depend on the
exponential's values. -/
def fexp0 : ℚ → ℚ := fun _ => 0

/-- The range `[0, 100]`, used for concrete evaluations. -/
def range0 : DialRange := ⟨0, 100⟩

/-- A dial in the drift state: empty trial queue, value 200 outside `range0`,
latch clear. -/
def dialDrift : Dial := ⟨200, 0, 0, range0, [], 0, 1, false⟩

/-- A dial with one remaining trial, a single segment from 50 to -200. -/
def dialLastTrial : Dial := ⟨50, 0, 0, range0, [[⟨50, -200, 15⟩]], 0, 1, false⟩

/-- A dial whose front trial still exists but whose segment queue is
exhausted. -/
def dialExhausted : Dial := ⟨50, 0, 0, range0, [[]], 0, 1, false⟩

/-- A dial mid-segment with a pending second trial and elapsed segment time 3. -/
def dialTwoTrials : Dial := ⟨50, 0, 0, range0, [[⟨0, 100, 1⟩], [⟨10, 90, 10⟩]], 3, 1, false⟩

/-- A dial whose current segment expires on the next one-second update. -/
def dialExpiring : Dial := ⟨30, 0, 0, range0, [[⟨0, 100, 1⟩]], 1/2, 1, false⟩

/-- Clear-key table used in concrete loop evaluations. -/
def keys0 : ℕ → Char := fun _ => 'A'

/-- An app state with one in-range drifting dial, no pressed key and no queued
alarms. -/
def appState0 : AppState := ⟨[⟨50, 0, 0, range0, [], 0, 1, false⟩], (0, 0), none, []⟩

/-- A configuration whose single dial references alarm "1", whose clear key is
the lower-case 'a'. -/
def cfgLower : Config := ⟨[⟨"1", 0, 100, 50⟩], [⟨"1", "alarm.wav", 'a'⟩]⟩

/-- A configuration whose single dial references the undefined alarm "X". -/
def cfgMissing : Config := ⟨[⟨"X", 0, 100, 50⟩], []⟩


/-- C1: The out-of-range latch described by the spec does not exist in the
code: starting from a dial whose value (200) is outside its range `[0,100]`
with `out_of_range = false`, two successive `update(1.0)` calls BOTH return
true, no update sets `out_of_range`, and `reset` does not write the flag
either — contradicting the claim (and `update`'s own doc comment, which says
true is returned only once until `reset`). -/
theorem update_no_latch_eval :
    (Dial.update fexp0 dialDrift 1).1 = true ∧
    (Dial.update fexp0 dialDrift 1).2.out_of_range = false ∧
    (Dial.update fexp0 (Dial.update fexp0 dialDrift 1).2 1).1 = true ∧
    (Dial.reset dialDrift).out_of_range = dialDrift.out_of_range := by
  refine ⟨?_, ?_, ?_, ?_⟩ <;>
    norm_num [Dial.update, Dial.reset, dialDrift, range0, DialRange.contains, DialRange.middle]

/-- C2: After `reset()` empties the trial queue the value is snapped to the
middle (50) of `[0,100]`, but a subsequent `update(1.0)` takes the
empty-trial-queue branch and drifts the value to 70 ≠ 50 — the Idle state is
not terminal, contradicting the claim and `reset`'s own doc comment. -/
theorem reset_idle_drift_eval :
    (Dial.reset dialLastTrial).trial_paths = [] ∧
    (Dial.reset dialLastTrial).value = range0.middle ∧
    range0.middle = 50 ∧
    (Dial.update fexp0 (Dial.reset dialLastTrial) 1).2.value = 70 ∧
    (70 : ℚ) ≠ 50 := by
  refine ⟨?_, ?_, ?_, ?_, ?_⟩ <;>
    norm_num [Dial.update, Dial.reset, dialLastTrial, range0, DialRange.middle]

/-- C3 counterexample: `dialExhausted` has an active front trial whose segment
queue is exhausted, yet `update(1.0)` leaves its value at 50 instead of
incrementing it by `travel_direction * 20.0 * delta_time = 20` as the claim
states. -/
theorem freedrift_wrong_state_cex :
    dialExhausted.trial_paths = [[]] ∧
    dialExhausted.travel_direction = 1 ∧
    (Dial.update fexp0 dialExhausted 1).2.value = 50 ∧
    (50 : ℚ) ≠ 50 + 1 * 20 * 1 := by
  refine ⟨rfl, rfl, ?_, ?_⟩ <;>
    norm_num [Dial.update, dialExhausted, range0]

/-- C3 (amended): when the front trial exists but its segment queue is empty,
`update` only advances `segment_time` and leaves every other field (the value
included) unchanged; the linear FreeDrift increment
`value += travel_direction * 20.0 * delta_time` happens exactly when the trial
queue itself is empty. -/
theorem update_exhausted_trial_behavior (fexp : ℚ → ℚ) (d : Dial) (dt : ℚ) :
    (∀ rest : List (List PathSegment), d.trial_paths = [] :: rest →
      (Dial.update fexp d dt).2 = { d with segment_time := d.segment_time + dt }) ∧
    (d.trial_paths = [] →
      (Dial.update fexp d dt).2 = { d with segment_time := d.segment_time + dt,
                                           value := d.value + d.travel_direction * 20 * dt }) := by
  constructor
  · intro rest h
    simp [Dial.update, h]
  · intro h
    simp [Dial.update, h]

/-- C3 witness: the amended theorem applied to `dialExhausted` (front trial
present, segment queue empty) and to `dialDrift` (trial queue empty). -/
theorem update_exhausted_trial_behavior_wit :
    (dialExhausted.trial_paths = [] :: [] ∧
      (Dial.update fexp0 dialExhausted 1).2 =
        { dialExhausted with segment_time := dialExhausted.segment_time + 1 }) ∧
    (dialDrift.trial_paths = [] ∧
      (Dial.update fexp0 dialDrift 1).2 =
        { dialDrift with segment_time := dialDrift.segment_time + 1,
                         value := dialDrift.value + dialDrift.travel_direction * 20 * 1 }) :=
  ⟨⟨rfl, (update_exhausted_trial_behavior fexp0 dialExhausted 1).1 [] rfl⟩,
    ⟨rfl, (update_exhausted_trial_behavior fexp0 dialDrift 1).2 rfl⟩⟩


/-- Helper: the `random_near` chain emits exactly `k` segments. -/
theorem randomNearSegs_length (r : DialRange) (flips : ℕ → Bool) (draws : ℕ → ℚ)
    (duration : ℚ) : ∀ (k i0 : ℕ) (last : ℚ),
    (randomNearSegs r flips draws duration i0 k last).1.length = k := by
  intro k
  induction k with
  | zero => intro i0 last; rfl
  | succ k ih => intro i0 last; simp [randomNearSegs, ih]

/-- Helper: every segment emitted by the `random_near` chain carries the
common duration. -/
theorem randomNearSegs_duration (r : DialRange) (flips : ℕ → Bool) (draws : ℕ → ℚ)
    (duration : ℚ) : ∀ (k i0 : ℕ) (last : ℚ) (s : PathSegment),
    s ∈ (randomNearSegs r flips draws duration i0 k last).1 → s.duration = duration := by
  intro k
  induction k with
  | zero => intro i0 last s h; simp [randomNearSegs] at h
  | succ k ih =>
    intro i0 last s h
    simp only [randomNearSegs, List.mem_cons] at h
    rcases h with h | h
    · subst h; rfl
    · exact ih _ _ _ h

/-- C5 counterexample: with `drift_out = false` (range `[0,100]`, total time
60, bounds `[4,8]`, count draw 0) the generator emits only 3 segments — below
`min_segments = 4` — and their durations sum to 45 ≠ 60. -/
theorem generate_no_drift_count_cex :
    (generate_random_dial_path range0 60 false 8 4 0 (1/2) (fun _ => false)
        (fun _ => 0) (1/2)).length = 3 ∧
    ¬ (4 ≤ 3) ∧
    ((generate_random_dial_path range0 60 false 8 4 0 (1/2) (fun _ => false)
        (fun _ => 0) (1/2)).map PathSegment.duration).sum = 45 ∧
    (45 : ℚ) ≠ 60 := by
  refine ⟨?_, by omega, ?_, by norm_num⟩ <;>
    norm_num [generate_random_dial_path, randomNearSegs, range0, DialRange.random_in,
      DialRange.random_near, DialRange.contains]

/-- C5 (amended): with `drift_out = true` and `1 ≤ min_segments ≤
max_segments`, for any count draw in `[0,1)` the generated path has exactly
`n = max(floor(max_segments * draw), min_segments)` segments, `n` lies in
`[min_segments, max_segments]`, every segment's duration is `total_time / n`,
and the durations sum exactly to `total_time`. -/
theorem generate_count_and_durations (r : DialRange) (time : ℚ)
    (maxSeg minSeg : ℕ) (numDraw inDraw : ℚ) (flips : ℕ → Bool) (draws : ℕ → ℚ)
    (outDraw : ℚ) (hmin : 1 ≤ minSeg) (hmm : minSeg ≤ maxSeg) (h1 : numDraw < 1) :
    (generate_random_dial_path r time true maxSeg minSeg numDraw inDraw flips draws outDraw).length
      = Nat.max (Int.toNat ⌊(maxSeg : ℚ) * numDraw⌋) minSeg ∧
    minSeg ≤ (generate_random_dial_path r time true maxSeg minSeg numDraw inDraw flips draws outDraw).length ∧
    (generate_random_dial_path r time true maxSeg minSeg numDraw inDraw flips draws outDraw).length ≤ maxSeg ∧
    (∀ s ∈ generate_random_dial_path r time true maxSeg minSeg numDraw inDraw flips draws outDraw,
      s.duration = time / ((Nat.max (Int.toNat ⌊(maxSeg : ℚ) * numDraw⌋) minSeg : ℕ) : ℚ)) ∧
    ((generate_random_dial_path r time true maxSeg minSeg numDraw inDraw flips draws outDraw).map
        PathSegment.duration).sum = time := by
  have hn1 : 1 ≤ Nat.max (Int.toNat ⌊(maxSeg : ℚ) * numDraw⌋) minSeg :=
    le_trans hmin (Nat.le_max_right _ _)
  have hnmax : Nat.max (Int.toNat ⌊(maxSeg : ℚ) * numDraw⌋) minSeg ≤ maxSeg := by
    refine Nat.max_le.mpr ⟨?_, hmm⟩
    have hmax0 : (0 : ℚ) < (maxSeg : ℚ) := by
      exact_mod_cast lt_of_lt_of_le Nat.zero_lt_one (le_trans hmin hmm)
    have hflt : ⌊(maxSeg : ℚ) * numDraw⌋ < (maxSeg : ℤ) := by
      refine Int.floor_lt.mpr ?_
      have := mul_lt_mul_of_pos_left h1 hmax0
      simpa using this
    exact Int.toNat_le.mpr (le_of_lt hflt)
  have hlen : (generate_random_dial_path r time true maxSeg minSeg numDraw inDraw flips draws outDraw).length
      = Nat.max (Int.toNat ⌊(maxSeg : ℚ) * numDraw⌋) minSeg := by
    simp only [generate_random_dial_path, if_true, List.length_append, List.length_cons,
      List.length_nil, randomNearSegs_length]
    omega
  refine ⟨hlen, ?_, ?_, ?_, ?_⟩
  · rw [hlen]; exact Nat.le_max_right _ _
  · rw [hlen]; exact hnmax
  · intro s hs
    simp only [generate_random_dial_path, if_true, List.mem_append, List.mem_singleton] at hs
    rcases hs with hs | hs
    · exact randomNearSegs_duration r flips draws _ _ _ _ s hs
    · subst hs; rfl
  · have hall : ∀ q ∈ (generate_random_dial_path r time true maxSeg minSeg numDraw inDraw
        flips draws outDraw).map PathSegment.duration,
        q = time / ((Nat.max (Int.toNat ⌊(maxSeg : ℚ) * numDraw⌋) minSeg : ℕ) : ℚ) := by
      intro q hq
      rcases List.mem_map.mp hq with ⟨s, hs, rfl⟩
      · simp only [generate_random_dial_path, if_true, List.mem_append, List.mem_singleton] at hs
        rcases hs with hs | hs
        · exact randomNearSegs_duration r flips draws _ _ _ _ s hs
        · subst hs; rfl
    rw [List.sum_eq_card_nsmul _ _ hall, List.length_map, hlen]
    have hne : ((Nat.max (Int.toNat ⌊(maxSeg : ℚ) * numDraw⌋) minSeg : ℕ) : ℚ) ≠ 0 :=
      Nat.cast_ne_zero.mpr (by omega)
    rw [nsmul_eq_mul]
    field_simp


/-- C5 witness: the amended generator theorem at range `[0,100]`, total time
60, bounds `[4,8]`, count draw 0 — the path has `max(0,4) = 4` segments and
their durations sum to 60. -/
theorem generate_count_and_durations_wit :
    (1 ≤ 4 ∧ 4 ≤ 8 ∧ (0 : ℚ) < 1) ∧
    (generate_random_dial_path range0 60 true 8 4 0 (1/2) (fun _ => false) (fun _ => 0) (1/2)).length
      = Nat.max (Int.toNat ⌊((8 : ℕ) : ℚ) * 0⌋) 4 ∧
    4 ≤ (generate_random_dial_path range0 60 true 8 4 0 (1/2) (fun _ => false) (fun _ => 0) (1/2)).length ∧
    (generate_random_dial_path range0 60 true 8 4 0 (1/2) (fun _ => false) (fun _ => 0) (1/2)).length ≤ 8 ∧
    ((generate_random_dial_path range0 60 true 8 4 0 (1/2) (fun _ => false) (fun _ => 0) (1/2)).map
        PathSegment.duration).sum = 60 :=
  ⟨⟨by norm_num, by norm_num, by norm_num⟩,
    (generate_count_and_durations range0 60 8 4 0 (1/2) (fun _ => false) (fun _ => 0) (1/2)
      (by norm_num) (by norm_num) (by norm_num)).1,
    (generate_count_and_durations range0 60 8 4 0 (1/2) (fun _ => false) (fun _ => 0) (1/2)
      (by norm_num) (by norm_num) (by norm_num)).2.1,
    (generate_count_and_durations range0 60 8 4 0 (1/2) (fun _ => false) (fun _ => 0) (1/2)
      (by norm_num) (by norm_num) (by norm_num)).2.2.1,
    (generate_count_and_durations range0 60 8 4 0 (1/2) (fun _ => false) (fun _ => 0) (1/2)
      (by norm_num) (by norm_num) (by norm_num)).2.2.2.2⟩

/-- C4 counterexample: with range `[0,100]` (middle 50) and an entering value
of exactly 50 — "at or above middle()" per the claim — the final drift-out
segment ends at -200, below `start`, not above `end`; and with a zero
magnitude draw the final segment ends exactly at `start = 0`, which the
inclusive range still contains, so the end is not outside the Range. -/
theorem slightly_out_middle_cex :
    range0.middle = 50 ∧
    (generate_random_dial_path range0 60 true 8 4 0 (1/2) (fun _ => false) (fun _ => 0) (1/2)).getLast?
      = some ⟨50, -200, 15⟩ ∧
    ¬ ((-200 : ℚ) > range0.end_) ∧
    (generate_random_dial_path range0 60 true 8 4 0 (1/2) (fun _ => false) (fun _ => 0) 0).getLast?
      = some ⟨50, 0, 15⟩ ∧
    range0.contains 0 = true := by
  refine ⟨?_, ?_, ?_, ?_, ?_⟩ <;>
    norm_num [generate_random_dial_path, randomNearSegs, range0, DialRange.random_in,
      DialRange.random_near, DialRange.contains, DialRange.slightly_out, DialRange.middle]

/-- C4 (amended): for any draws with the magnitude draw in `[0,1)`, the final
segment of a drift-out path ends at `start - m` when its entering value is at
or below `middle()`, and at `end + m` when strictly above, where
`m = draw * 400 ∈ [0,400)`; the end is strictly outside the (inclusive) range
whenever the draw is positive. -/
theorem drift_out_final_segment (r : DialRange) (time : ℚ)
    (maxSeg minSeg : ℕ) (numDraw inDraw : ℚ) (flips : ℕ → Bool) (draws : ℕ → ℚ)
    (outDraw : ℚ) (seg : PathSegment) (h0 : 0 ≤ outDraw) (h1 : outDraw < 1)
    (hlast : (generate_random_dial_path r time true maxSeg minSeg numDraw inDraw
        flips draws outDraw).getLast? = some seg) :
    (seg.start ≤ r.middle →
      seg.end_ = r.start - outDraw * 400 ∧ r.start - 400 < seg.end_ ∧ seg.end_ ≤ r.start) ∧
    (r.middle < seg.start →
      seg.end_ = r.end_ + outDraw * 400 ∧ r.end_ ≤ seg.end_ ∧ seg.end_ < r.end_ + 400) ∧
    (0 < outDraw → r.contains seg.end_ = false) := by
  simp only [generate_random_dial_path, if_true, List.getLast?_concat, Option.some.injEq] at hlast
  subst hlast
  simp only [DialRange.slightly_out, DialRange.middle]
  refine ⟨?_, ?_, ?_⟩
  · intro hle
    rw [if_pos hle]
    refine ⟨rfl, by nlinarith, by nlinarith⟩
  · intro hgt
    rw [if_neg (not_le.mpr hgt)]
    refine ⟨rfl, by nlinarith, by nlinarith⟩
  · intro hpos
    by_cases hc : (randomNearSegs r flips draws
        (time / ((Nat.max (Int.toNat ⌊(maxSeg : ℚ) * numDraw⌋) minSeg : ℕ) : ℚ)) 0
        (Nat.max (Int.toNat ⌊(maxSeg : ℚ) * numDraw⌋) minSeg - 1) (r.random_in inDraw)).2
        ≤ (r.end_ - r.start) / 2 + r.start
    · rw [if_pos hc]
      simp only [DialRange.contains, Bool.and_eq_false_iff, decide_eq_false_iff_not, not_le, ge_iff_le]
      right
      linarith
    · rw [if_neg hc]
      simp only [DialRange.contains, Bool.and_eq_false_iff, decide_eq_false_iff_not, not_le, ge_iff_le]
      left
      linarith


/-- C4 witness: the amended theorem at range `[0,100]` with entering value 75
(strictly above middle) and magnitude draw 1/2 — the final segment ends at
`100 + 200 = 300`, strictly outside the range. -/
theorem drift_out_final_segment_wit :
    ((0 : ℚ) ≤ 1/2 ∧ (1/2 : ℚ) < 1 ∧
      (generate_random_dial_path range0 60 true 8 4 0 (3/4) (fun _ => false) (fun _ => 0) (1/2)).getLast?
        = some ⟨75, 300, 15⟩) ∧
    ((⟨75, 300, 15⟩ : PathSegment).end_ = range0.end_ + (1/2 : ℚ) * 400 ∧
      range0.end_ ≤ (⟨75, 300, 15⟩ : PathSegment).end_ ∧
      (⟨75, 300, 15⟩ : PathSegment).end_ < range0.end_ + 400) ∧
    range0.contains (⟨75, 300, 15⟩ : PathSegment).end_ = false := by
  have hlast : (generate_random_dial_path range0 60 true 8 4 0 (3/4) (fun _ => false)
      (fun _ => 0) (1/2)).getLast? = some ⟨75, 300, 15⟩ := by
    norm_num [generate_random_dial_path, randomNearSegs, range0, DialRange.random_in,
      DialRange.random_near, DialRange.contains, DialRange.slightly_out]
  have h := drift_out_final_segment range0 60 8 4 0 (3/4) (fun _ => false) (fun _ => 0)
    (1/2) ⟨75, 300, 15⟩ (by norm_num) (by norm_num) hlast
  exact ⟨⟨by norm_num, by norm_num, hlast⟩,
    h.2.1 (by norm_num [range0, DialRange.middle]), h.2.2 (by norm_num)⟩

/-- Helper: resetting the dial at index `i` preserves the list length. -/
theorem resetAt_length (dials : List Dial) : ∀ i : ℕ, (resetAt dials i).length = dials.length := by
  induction dials with
  | nil => intro i; rfl
  | cons d ds ih =>
    intro i
    cases i with
    | zero => simp [resetAt]
    | succ n => simp [resetAt, ih]

/-- Helper: the entry at the reset index is the old entry, reset. -/
theorem resetAt_get_self (dials : List Dial) : ∀ i : ℕ,
    (resetAt dials i)[i]? = dials[i]?.map Dial.reset := by
  induction dials with
  | nil => intro i; rfl
  | cons d ds ih =>
    intro i
    cases i with
    | zero => simp [resetAt]
    | succ n => simpa [resetAt] using ih n

/-- Helper: every other entry is untouched by `resetAt`. -/
theorem resetAt_get_ne (dials : List Dial) : ∀ i j : ℕ, j ≠ i →
    (resetAt dials i)[j]? = dials[j]? := by
  induction dials with
  | nil => intro i j _; rfl
  | cons d ds ih =>
    intro i j hne
    cases i with
    | zero =>
      cases j with
      | zero => exact absurd rfl hne
      | succ m => simp [resetAt]
    | succ n =>
      cases j with
      | zero => simp [resetAt]
      | succ m => simpa [resetAt] using ih n m (fun h => hne (by rw [h]))

/-- C6: when a key `key` is pressed while alarms `a :: rest` are queued, the
resolution step pops exactly the oldest alarm `a` (whatever `key` is), resets
the dial at index `a.dial_id` leaving all other dials untouched, emits one
reaction record whose `correct` flag is `a.correct_key == key`, and leaves
exactly the remaining alarms `rest` queued — at most one alarm is resolved. -/
theorem alarm_resolution_fifo (now : ℚ) (key : Char) (a : Alarm) (rest : List Alarm)
    (dials : List Dial) :
    resolveAlarm now (some key) (a :: rest) dials =
      (rest, resetAt dials a.dial_id,
        some ⟨a.dial_id, (now - a.time) * 1000, a.correct_key == key, key⟩) ∧
    (resetAt dials a.dial_id).length = dials.length ∧
    (resetAt dials a.dial_id)[a.dial_id]? = dials[a.dial_id]?.map Dial.reset ∧
    (∀ j : ℕ, j ≠ a.dial_id → (resetAt dials a.dial_id)[j]? = dials[j]?) :=
  ⟨rfl, resetAt_length dials a.dial_id, resetAt_get_self dials a.dial_id,
    fun j hj => resetAt_get_ne dials a.dial_id j hj⟩

/-- C6 witness: concrete instance — alarms for dial 0 (raised at t=1, key 'A')
then dial 1 (raised at t=1.5, key 'B') are queued; pressing 'B' at t=2 still
resolves dial 0's alarm, with `correct = ('A' == 'B') = false`, and leaves
dial 1's alarm queued. -/
theorem alarm_resolution_fifo_wit :
    resolveAlarm 2 (some 'B') (⟨0, 1, 'A'⟩ :: [⟨1, 3/2, 'B'⟩]) [dialLastTrial, dialDrift] =
      ([⟨1, 3/2, 'B'⟩], resetAt [dialLastTrial, dialDrift] 0,
        some ⟨0, (2 - 1) * 1000, 'A' == 'B', 'B'⟩) ∧
    (resetAt [dialLastTrial, dialDrift] 0)[1]? = some dialDrift ∧
    ('A' == 'B') = false :=
  ⟨(alarm_resolution_fifo 2 'B' ⟨0, 1, 'A'⟩ [⟨1, 3/2, 'B'⟩] [dialLastTrial, dialDrift]).1,
    (alarm_resolution_fifo 2 'B' ⟨0, 1, 'A'⟩ [⟨1, 3/2, 'B'⟩] [dialLastTrial, dialDrift]).2.2.2
      1 (by decide),
    by decide⟩


/-- C7: startup-order evaluation.  On `cfgLower` the dial is constructed
holding the raw lower-case clear key 'a', even though `validate_config`
(which runs afterwards) uppercases the alarm's key to 'A' — so the key is not
normalized before the dial consumes it.  On `cfgMissing` the startup panics
at the alarm-map index while building the dials, before `validate_config`
can report the missing alarm. -/
theorem run_order_eval :
    run_setup cfgLower = RunOutcome.started [⟨0, 50, ⟨0, 100⟩, 'a'⟩]
        ⟨[⟨"1", 0, 100, 50⟩], [⟨"1", "alarm.wav", 'A'⟩]⟩ ∧
    'a' ≠ 'A' ∧
    run_setup cfgMissing = RunOutcome.panicMissingAlarm "X" := by
  refine ⟨?_, by decide, ?_⟩ <;> rfl

/-- C8 counterexample: with the lock failing at iteration 0 and succeeding at
iteration 1, one iteration leaves the state untouched, yet after two
iterations the body has run (the dial drifted from 50 to 70): the loop
continued past the failed acquisition instead of stopping. -/
theorem lock_failure_continue_cex :
    modelLoop fexp0 keys0 (fun i => i == 1) (fun _ => 1) (fun _ => 1) 1 appState0 = appState0 ∧
    (modelLoop fexp0 keys0 (fun i => i == 1) (fun _ => 1) (fun _ => 1) 2 appState0).dials
      = [⟨70, 0, 0, range0, [], 1, 1, false⟩] ∧
    (70 : ℚ) ≠ 50 := by
  refine ⟨rfl, ?_, by norm_num⟩
  norm_num [modelLoop, modelLoopAux, modelTickBody, resolveAlarm, appState0, keys0,
    Dial.update, range0, DialRange.contains, List.enum, List.enumFrom]

/-- C8 (amended): a failed lock acquisition only skips that iteration's body;
after any run of `n` consecutive failures, the next successful acquisition
still executes the body on the unchanged state — the loop never stops. -/
theorem lock_failure_skip_then_run (fexp : ℚ → ℚ) (ck : ℕ → Char)
    (lockOk : ℕ → Bool) (now delta : ℕ → ℚ) (n i : ℕ) (s : AppState)
    (hfail : ∀ j, j < n → lockOk (i + j) = false)
    (hok : lockOk (i + n) = true) :
    modelLoopAux fexp ck lockOk now delta i (n + 1) s =
      modelTickBody fexp ck (now (i + n)) (delta (i + n)) s := by
  induction n generalizing i s with
  | zero =>
    rw [Nat.add_zero] at hok ⊢
    simp [modelLoopAux, hok]
  | succ n ih =>
    have h0 : lockOk i = false := by simpa using hfail 0 (Nat.succ_pos n)
    have step : modelLoopAux fexp ck lockOk now delta i (n + 1 + 1) s =
        modelLoopAux fexp ck lockOk now delta (i + 1) (n + 1) s := by
      simp [modelLoopAux, h0]
    rw [step]
    have hfail' : ∀ j, j < n → lockOk (i + 1 + j) = false := by
      intro j hj
      have := hfail (j + 1) (by omega)
      rwa [show i + (j + 1) = i + 1 + j by omega] at this
    have hok' : lockOk (i + 1 + n) = true := by
      rwa [show i + 1 + n = i + (n + 1) by omega]
    rw [ih (i + 1) s hfail' hok', show i + 1 + n = i + (n + 1) by omega]

/-- C8 witness: the amended theorem with one failure (iteration 0) followed by
a successful acquisition at iteration 1 on `appState0`. -/
theorem lock_failure_skip_then_run_wit :
    ((fun i => i == 1) (0 + 1) = true) ∧
    modelLoopAux fexp0 keys0 (fun i => i == 1) (fun _ => (1 : ℚ)) (fun _ => (1 : ℚ)) 0 (1 + 1) appState0
      = modelTickBody fexp0 keys0 1 1 appState0 :=
  ⟨rfl, lock_failure_skip_then_run fexp0 keys0 (fun i => i == 1) (fun _ => (1 : ℚ))
    (fun _ => (1 : ℚ)) 1 0 appState0
    (fun j hj => by have hj0 : j = 0 := Nat.lt_one_iff.mp hj; subst hj0; rfl) rfl⟩

/-- C9: `reset` never writes `segment_time`, so a reset performed mid-segment
carries the elapsed time over: on the following `update(dt)` the next trial's
first segment is evaluated at `segment_time + dt`, not at `dt`. -/
theorem reset_preserves_segment_time (fexp : ℚ → ℚ) (d : Dial) (dt : ℚ)
    (seg : PathSegment) (segs : List PathSegment) (rest : List (List PathSegment))
    (hpaths : (Dial.reset d).trial_paths = (seg :: segs) :: rest)
    (hin : seg.in_segment (d.segment_time + dt) = true) :
    (Dial.reset d).segment_time = d.segment_time ∧
    (Dial.update fexp (Dial.reset d) dt).2.segment_time = d.segment_time + dt ∧
    (Dial.update fexp (Dial.reset d) dt).2.value
      = seg.value_at_time fexp (d.segment_time + dt) := by
  have hst : (Dial.reset d).segment_time = d.segment_time := by
    by_cases h : d.trial_paths.tail.isEmpty = true <;> simp [Dial.reset, h]
  refine ⟨hst, ?_, ?_⟩ <;>
    simp only [Dial.update, hpaths, hst, hin, if_true]

/-- C9 witness: a dial reset mid-segment with elapsed segment time 3; the next
trial's first segment (duration 10) is entered at time 3 + 1 = 4. -/
theorem reset_preserves_segment_time_wit :
    ((Dial.reset dialTwoTrials).trial_paths = ((⟨10, 90, 10⟩ : PathSegment) :: []) :: [] ∧
      PathSegment.in_segment ⟨10, 90, 10⟩ (dialTwoTrials.segment_time + 1) = true) ∧
    ((Dial.reset dialTwoTrials).segment_time = dialTwoTrials.segment_time ∧
      (Dial.update fexp0 (Dial.reset dialTwoTrials) 1).2.segment_time
        = dialTwoTrials.segment_time + 1 ∧
      (Dial.update fexp0 (Dial.reset dialTwoTrials) 1).2.value
        = PathSegment.value_at_time fexp0 ⟨10, 90, 10⟩ (dialTwoTrials.segment_time + 1)) :=
  ⟨⟨rfl, by norm_num [PathSegment.in_segment, dialTwoTrials]⟩,
    reset_preserves_segment_time fexp0 dialTwoTrials 1 ⟨10, 90, 10⟩ [] [] rfl
      (by norm_num [PathSegment.in_segment, dialTwoTrials])⟩

/-- C10: on an update where the current segment has just expired
(`segment_time + dt` exceeds its duration), the dial's value is untouched for
that tick: the segment is dropped, `travel_direction` is recorded from it,
`segment_time` is zeroed, and the returned flag is computed against the
unchanged value. -/
theorem update_segment_expiry_frame (fexp : ℚ → ℚ) (d : Dial) (dt : ℚ)
    (seg : PathSegment) (segs : List PathSegment) (rest : List (List PathSegment))
    (hpaths : d.trial_paths = (seg :: segs) :: rest)
    (hexp : seg.in_segment (d.segment_time + dt) = false) :
    (Dial.update fexp d dt).2.value = d.value ∧
    (Dial.update fexp d dt).2.trial_paths = segs :: rest ∧
    (Dial.update fexp d dt).2.travel_direction = seg.travel_direction ∧
    (Dial.update fexp d dt).2.segment_time = 0 ∧
    (Dial.update fexp d dt).1 = (!d.out_of_range && !d.in_range.contains d.value) := by
  simp only [Dial.update, hpaths, hexp, Bool.false_eq_true, if_false]
  refine ⟨?_, ?_, ?_, ?_, ?_⟩ <;> simp

/-- C10 witness: `dialExpiring`'s segment (duration 1, elapsed 1/2) expires on
an update with `dt = 1`; the value stays 30, the segment is dropped, the
travel direction 1 is recorded and the segment clock is zeroed. -/
theorem update_segment_expiry_frame_wit :
    (dialExpiring.trial_paths = ((⟨0, 100, 1⟩ : PathSegment) :: []) :: [] ∧
      PathSegment.in_segment ⟨0, 100, 1⟩ (dialExpiring.segment_time + 1) = false) ∧
    ((Dial.update fexp0 dialExpiring 1).2.value = dialExpiring.value ∧
      (Dial.update fexp0 dialExpiring 1).2.trial_paths = [] :: [] ∧
      (Dial.update fexp0 dialExpiring 1).2.travel_direction
        = PathSegment.travel_direction ⟨0, 100, 1⟩ ∧
      (Dial.update fexp0 dialExpiring 1).2.segment_time = 0 ∧
      (Dial.update fexp0 dialExpiring 1).1
        = (!dialExpiring.out_of_range && !dialExpiring.in_range.contains dialExpiring.value)) :=
  ⟨⟨rfl, by norm_num [PathSegment.in_segment, dialExpiring]⟩,
    update_segment_expiry_frame fexp0 dialExpiring 1 ⟨0, 100, 1⟩ [] [] rfl
      (by norm_num [PathSegment.in_segment, dialExpiring])⟩

end DialsResearch
